import Mathlib

/-! Expense Tracker front end (`src/App.js`): filter engine and state handlers.

A shallow embedding of the `App` component of `src/App.js`.

* JavaScript strings are Lean `String`s; `undefined`/`null`/absent object properties are
  `none`. The built-in `String.prototype.toLowerCase` belongs to the runtime, not to the
  repository: it is a parameter (`LowerCase`) of everything that calls it.
* JavaScript numbers are IEEE 754 binary64 values (`Double`), with round-to-nearest,
  ties-to-even addition and multiplication, signed zeros, infinities and NaN.
* The derived views `filteredEntries` and `totalSpentFiltered` are pure functions of
  the component state they read.
* An `async` handler is a function of the render whose closure it is, of the outcome of
  its single awaited request (`Response`) and of the state in which that request
  settles; it returns the new state together with the requests it issued.
-/

namespace ExpenseTracker

/-! ## JavaScript string built-ins used by the component -/

/-- The built-in `String.prototype.toLowerCase` of the runtime. Its Unicode case tables
are not part of the repository, so the function is a parameter; the one fact the
development uses about it is `ascii`: on text made of Basic Latin characters only it maps
`A`-`Z` to `a`-`z` and keeps every other character. -/
structure LowerCase where
  toLowerCase : String → String
  ascii : ∀ s : String, (∀ c ∈ s.data, c.toNat < 128) →
    toLowerCase s = ⟨s.data.map Char.toLower⟩

/-- The lower-casing that touches the Basic Latin letters only; every `LowerCase` agrees
with it on Basic Latin text. -/
def asciiLowerCase : LowerCase :=
  { toLowerCase := fun s => ⟨s.data.map Char.toLower⟩
    ascii := fun _ _ => rfl }

/-- Substring test on character lists: does `needle` occur contiguously in the list? -/
def includesChars (needle : List Char) : List Char → Bool
  | [] => needle.isEmpty
  | c :: cs => needle.isPrefixOf (c :: cs) || includesChars needle cs

/-- JavaScript `String.prototype.includes`: `hay.includes(needle)`. -/
def includes (hay needle : String) : Bool :=
  includesChars needle.data hay.data

/-! ## JavaScript numbers

A finite double is an integer multiple of `2^-1074` (the smallest subnormal), so it is
held as a sign and a natural number of such units; `-0` is `fin true 0`. The doubles are
the values whose units have at most 53 significant bits and stay below `2^2098` (that
is, `2^1024`); the type holds other values as well, the operations round whatever they
are given, and what is proved for every value of the type holds for the doubles. -/

/-- A number as `JSON.parse` produces it: finite (possibly `-0`) or, for a literal beyond
the range of doubles, infinite; never NaN. -/
inductive JsonNumber
  | fin (negative : Bool) (units : Nat)
  | inf (negative : Bool)
  deriving DecidableEq

/-- A JavaScript number: NaN, or a finite or infinite value. -/
inductive Double
  | nan
  | num (x : JsonNumber)
  deriving DecidableEq

/-- The number `+0`. -/
def Double.zero : Double := .num (.fin false 0)

/-- The number `m / 2^e` for `e ≤ 1074`, which is a double when `m < 2^53`. -/
def JsonNumber.dyadic (m e : Nat) : JsonNumber := .fin false (m * 2 ^ (1074 - e))

/-- The natural number `n` as a number (a double when `n < 2^53`). -/
def JsonNumber.ofNat (n : Nat) : JsonNumber := JsonNumber.dyadic n 0

/-- The natural number `n` as a JavaScript number. -/
def Double.ofNat (n : Nat) : Double := .num (JsonNumber.ofNat n)

/-- Truthiness of a number that is not NaN: everything but `+0` and `-0`. -/
def JsonNumber.truthy : JsonNumber → Bool
  | .fin _ units => units != 0
  | .inf _ => true

/-- The number of low bits to drop from `n` so that 53 bits are left (`0` when `n` fits
53 bits already); `fuel` bounds the search and `n` itself is enough of it. -/
def excessBits : Nat → Nat → Nat
  | 0, _ => 0
  | fuel + 1, n => if n < 2 ^ 53 then 0 else excessBits fuel (n / 2) + 1

/-- Rounding to binary64, to nearest with ties to even: the double nearest to the exact
value `± p * 2^(-1074 - k)`. The low `shift` bits are dropped, at least `k` of them (so
that the result is a whole number of units, which covers subnormals) and as many as it
takes to leave 53 bits; a result of `2^1024` or more is an infinity. -/
def roundUnits (negative : Bool) (p k : Nat) : Double :=
  let shift := k + excessBits p (p / 2 ^ k)
  let q := p / 2 ^ shift
  let r := p % 2 ^ shift
  let q1 := if 2 ^ shift < 2 * r ∨ (2 * r = 2 ^ shift ∧ q % 2 = 1) then q + 1 else q
  let units := q1 * 2 ^ (shift - k)
  if units < 2 ^ 2098 then .num (.fin negative units) else .num (.inf negative)

/-- JavaScript `x + y` on numbers. -/
def Double.add : Double → Double → Double
  | .nan, _ => .nan
  | _, .nan => .nan
  | .num (.inf a), .num (.inf b) => if a = b then .num (.inf a) else .nan
  | .num (.inf a), .num (.fin _ _) => .num (.inf a)
  | .num (.fin _ _), .num (.inf b) => .num (.inf b)
  | .num (.fin s m), .num (.fin t n) =>
    if s = t then roundUnits s (m + n) 0
    else if m = n then .num (.fin false 0)
    else if n < m then roundUnits s (m - n) 0
    else roundUnits t (n - m) 0

/-- JavaScript `x * y` on numbers. -/
def Double.mul : Double → Double → Double
  | .nan, _ => .nan
  | _, .nan => .nan
  | .num (.inf a), .num (.inf b) => .num (.inf (a != b))
  | .num (.inf a), .num (.fin t n) => if n = 0 then .nan else .num (.inf (a != t))
  | .num (.fin s m), .num (.inf b) => if m = 0 then .nan else .num (.inf (s != b))
  | .num (.fin s m), .num (.fin t n) => roundUnits (s != t) (m * n) 1074

/-- The finite value `± units` as an integer number of units. -/
def signedUnits (negative : Bool) (units : Nat) : Int :=
  if negative then -(units : Int) else (units : Int)

/-- JavaScript `x <= y` on numbers: false as soon as one side is NaN, and `-0 <= +0`. -/
def Double.le : Double → Double → Bool
  | .nan, _ => false
  | _, .nan => false
  | .num (.inf a), .num (.inf b) => a || !b
  | .num (.inf a), .num (.fin _ _) => a
  | .num (.fin _ _), .num (.inf b) => !b
  | .num (.fin s m), .num (.fin t n) => decide (signedUnits s m ≤ signedUnits t n)

/-- The test `Number.isFinite` on a number that is not NaN. -/
def JsonNumber.isFinite : JsonNumber → Bool
  | .fin _ _ => true
  | .inf _ => false

/-- The double that rounding with no bits dropped beforehand (`k = 0`) gives for `p`
units, as a number of units and before the overflow test. -/
def roundNat (p : Nat) : Nat :=
  let t := excessBits p p
  let q := p / 2 ^ t
  let r := p % 2 ^ t
  (if 2 ^ t < 2 * r ∨ (2 * r = 2 ^ t ∧ q % 2 = 1) then q + 1 else q) * 2 ^ t

/-- The sum of a list of numbers as JavaScript computes it: `+` from left to right,
starting from `0`. -/
def doubleSum (xs : List Double) : Double :=
  xs.foldl Double.add Double.zero

/-- A number that is `+Infinity` or finite with the sign bit clear. -/
def NonNeg (d : Double) : Prop :=
  d = .num (.inf false) ∨ ∃ n, d = .num (.fin false n)

/-- A non-negative number that rounding leaves as it is: what a sum of non-negative
numbers started from `+0` holds after each step. -/
def Settled (d : Double) : Prop :=
  d = .num (.inf false) ∨ ∃ n, d = .num (.fin false n) ∧ roundNat n = n

/-! ## Data model -/

/-- An element of the `entries` array as the component reads it: every property may be
absent (`undefined` or `null`). The numbers come out of `JSON.parse`. -/
structure Entry where
  eid : Option Nat
  date : Option String
  name : Option String
  type : Option String
  quantity : Option JsonNumber
  price : Option JsonNumber
  mode : Option String
  note : Option String
  deriving DecidableEq

/-! ## Derived views (`App.js` lines 37-60) -/

/-- The expression `e.f?.toLowerCase().includes(searchTerm.toLowerCase())`: `undefined`
(`none`) when the property is absent, otherwise the boolean result. -/
def fieldIncludes (L : LowerCase) (field : Option String) (searchTerm : String) :
    Option Bool :=
  field.map fun v => includes (L.toLowerCase v) (L.toLowerCase searchTerm)

/-- Truthiness of an `undefined`-or-boolean value. -/
def truthyOptBool : Option Bool → Bool
  | none => false
  | some b => b

/-- The `matchesSearch` constant of the filter callback (lines 39-43), as its truthiness. -/
def matchesSearch (L : LowerCase) (searchTerm : String) (e : Entry) : Bool :=
  searchTerm == "" ||
  truthyOptBool (fieldIncludes L e.name searchTerm) ||
  truthyOptBool (fieldIncludes L e.type searchTerm) ||
  truthyOptBool (fieldIncludes L e.note searchTerm)

/-- The `matchesMode` constant of the filter callback (lines 45-47), as its truthiness:
`e.mode && ...` is falsy for an absent and for an empty mode. -/
def matchesMode (L : LowerCase) (filterMode : String) (e : Entry) : Bool :=
  filterMode == "all" ||
  (match e.mode with
   | none => false
   | some md => md != "" && L.toLowerCase md == L.toLowerCase filterMode)

/-- The memo `filteredEntries` (lines 37-51):
`entries.filter(e => matchesSearch && matchesMode)`. -/
def filteredEntries (L : LowerCase) (entries : List Entry) (searchTerm filterMode : String) :
    List Entry :=
  entries.filter fun e => matchesSearch L searchTerm e && matchesMode L filterMode e

/-- The expression `x || 0` on an optional number: an absent value and the falsy numbers
`+0` and `-0` give `+0`. -/
def orZero : Option JsonNumber → JsonNumber
  | none => .fin false 0
  | some x => if x.truthy then x else .fin false 0

/-- The memo `totalSpentFiltered` (lines 53-60): the `reduce` over the filtered list,
from `0`, with the callback `sum + (e.quantity || 0) * (e.price || 0)`. -/
def totalSpentFiltered (filteredEntries : List Entry) : Double :=
  filteredEntries.foldl
    (fun sum e => Double.add sum (Double.mul (.num (orZero e.quantity)) (.num (orZero e.price))))
    Double.zero

/-- Line total of an entry in the words of the specification: `quantity * price`, a
missing quantity or price counting as `0`. -/
def lineTotal (e : Entry) : Double :=
  Double.mul (.num (e.quantity.getD (.fin false 0))) (.num (e.price.getD (.fin false 0)))

/-- The entry created in the scenario of the specification, as the server returns it:
quantity `2`, price `3.5`. -/
def coffee : Entry :=
  { eid := some 1, date := none, name := some "Coffee", type := some "Food",
    quantity := some (.ofNat 2), price := some (.dyadic 7 1), mode := some "cash",
    note := none }

/-- A second entry, paid by UPI: quantity `3`, price `1.5`. -/
def tea : Entry :=
  { eid := some 2, date := none, name := some "Tea", type := some "Food",
    quantity := some (.ofNat 3), price := some (.dyadic 3 1), mode := some "upi",
    note := some "office" }

/-- An entry whose quantity literal is beyond the range of doubles (`1e999`, which
`JSON.parse` reads as `Infinity`) and whose price is `0`. -/
def bulk : Entry :=
  { eid := some 3, date := none, name := some "Bulk", type := some "Misc",
    quantity := some (.inf false), price := some (.fin false 0), mode := some "card",
    note := none }

/-! ## Component state, requests and responses -/

/-- The monthly statistics object the stats endpoint returns. -/
structure StatsSnapshot where
  month : Option JsonNumber
  year : Option JsonNumber
  totalSpent : Option JsonNumber
  averageDailySpent : Option JsonNumber
  highestExpense : Option JsonNumber
  deriving DecidableEq

/-- A JavaScript value as it arrives in a response body (`res.data`,
`err.response.data`) and as the `stats` and `message` state cells hold it. -/
inductive Data
  | null
  | bool (b : Bool)
  | num (x : JsonNumber)
  | str (s : String)
  | arr (items : List Entry)
  | snapshot (o : StatsSnapshot)
  | obj (fields : List (String × String))
  deriving DecidableEq

/-- JavaScript truthiness of a value. -/
def Data.truthy : Data → Bool
  | .null => false
  | .bool b => b
  | .num x => x.truthy
  | .str s => s != ""
  | .arr _ => true
  | .snapshot _ => true
  | .obj _ => true

/-- The test `Array.isArray(d)`, giving the elements when it holds. -/
def Data.asArray : Data → Option (List Entry)
  | .arr items => some items
  | _ => none

/-- The test `typeof d === "string"`. -/
def Data.isString : Data → Bool
  | .str _ => true
  | _ => false

/-- The `entryForm` state cell (the draft of a new entry). -/
structure EntryForm where
  name : String
  type : String
  quantity : Double
  price : Double
  note : String
  mode : String
  deriving DecidableEq

/-- The literal both `useState` (line 18) and `handleAddEntry` (line 155) give the draft. -/
def defaultEntryForm : EntryForm :=
  { name := "", type := "", quantity := Double.ofNat 1, price := Double.zero, note := "",
    mode := "cash" }

/-- Values of the `authMode` state cell. -/
inductive AuthMode
  | login
  | register
  deriving DecidableEq

/-- Values of the `activeTab` state cell. -/
inductive Tab
  | dashboard
  | entries
  | stats
  deriving DecidableEq

/-- The `useState` cells of `App` (lines 7-34). -/
structure AppState where
  username : String
  password : String
  isLoggedIn : Bool
  authMode : AuthMode
  activeTab : Tab
  entries : List Entry
  stats : Data
  message : Data
  entryForm : EntryForm
  searchTerm : String
  filterMode : String
  statsMonth : Double
  statsYear : Double
  deriving DecidableEq

/-- The state of the first render; `month` and `year` come from `new Date()`. -/
def initialState (month year : Double) : AppState :=
  { username := "", password := "", isLoggedIn := false, authMode := .login,
    activeTab := .dashboard, entries := [], stats := .null, message := .str "",
    entryForm := defaultEntryForm, searchTerm := "", filterMode := "all",
    statsMonth := month, statsYear := year }

/-- The HTTP requests the component sends through axios. -/
inductive Request
  | postLogin (username password : String)
  | postCreateUser (username password : String)
  | getEntries (uname : String)
  | getStats (uname : String) (month year : Double)
  | postCreateEntry (username : String) (draft : EntryForm)
  | deleteEntry (eid : Option Nat)
  deriving DecidableEq

/-- Outcome of an awaited axios call: the promise resolves with a status and a body, or
rejects; `rejected none` is an error without `err.response`, `rejected (some d)` one
whose `err.response.data` is `d`. -/
inductive Response
  | resolved (status : Nat) (data : Data)
  | rejected (data : Option Data)
  deriving DecidableEq

/-- The test `err.response && err.response.data` of the catch blocks, as the value to
show when it is truthy. -/
def errorPayload : Option Data → Option Data
  | some d => if d.truthy then some d else none
  | none => none

/-! ## Handlers (`App.js` lines 62-209)

A handler is a closure of one render: what it reads (`username`, `password`,
`entryForm`, `statsMonth`, `statsYear`) are the values of that render, the state `c`;
what it writes goes through the setters into the state current at that moment. A handler
function below takes `c`, the outcome `r` of its awaited request and the state `s` in
which the request settles (which differs from `c` by the handler's own write before the
`await` and by whatever else happened while the request was in flight), and returns the
state it leaves together with the requests the call has issued: its own first, then
those of the `fetchEntries` / `fetchStats` calls it starts without awaiting them. The
write a handler makes before its `await` is a function of its own (`...Submit`). -/

/-- The function `fetchEntries` (lines 115-130); it reads nothing but its argument. -/
def fetchEntries (uname : String) (r : Response) (s : AppState) : AppState × List Request :=
  let sent := [Request.getEntries uname]
  match r with
  | .resolved _ d =>
    match d.asArray with
    | some items => ({ s with entries := items }, sent)
    | none =>
      let s1 := { s with entries := [] }
      if d.isString then ({ s1 with message := d }, sent) else (s1, sent)
  | .rejected _ => ({ s with message := .str "Failed to fetch entries" }, sent)

/-- The function `fetchStats` (lines 132-142); it reads nothing but its arguments. -/
def fetchStats (uname : String) (month year : Double) (r : Response) (s : AppState) :
    AppState × List Request :=
  let sent := [Request.getStats uname month year]
  match r with
  | .resolved _ d => ({ s with stats := d }, sent)
  | .rejected _ => ({ s with message := .str "Failed to fetch stats" }, sent)

/-- The handler `handleLogin` before its `await` (lines 63-64): `setMessage("")`. -/
def handleLoginSubmit (s : AppState) : AppState :=
  { s with message := .str "" }

/-- The handler `handleLogin` (lines 66-86), closure of the render `c`, once its request
has settled with `r` in state `s`. -/
def handleLogin (c : AppState) (r : Response) (s : AppState) : AppState × List Request :=
  let sent := [Request.postLogin c.username c.password]
  match r with
  | .resolved status _ =>
    if status = 200 then
      ({ s with isLoggedIn := true, message := .str "Login successful",
                activeTab := .dashboard },
        sent ++ [.getEntries c.username, .getStats c.username c.statsMonth c.statsYear])
    else (s, sent)
  | .rejected e =>
    match errorPayload e with
    | some d => ({ s with message := d }, sent)
    | none => ({ s with message := .str "Login failed" }, sent)

/-- The handler `handleRegister` before its `await` (lines 90-91): `setMessage("")`. -/
def handleRegisterSubmit (s : AppState) : AppState :=
  { s with message := .str "" }

/-- The handler `handleRegister` (lines 93-112), closure of the render `c`, once its
request has settled with `r` in state `s`. -/
def handleRegister (c : AppState) (r : Response) (s : AppState) : AppState × List Request :=
  let sent := [Request.postCreateUser c.username c.password]
  match r with
  | .resolved status _ =>
    if status = 201 then
      ({ s with message := .str "User registered successfully. You can now login.",
                authMode := .login }, sent)
    else ({ s with message := .str "Registration failed" }, sent)
  | .rejected e =>
    match errorPayload e with
    | some d => ({ s with message := d }, sent)
    | none => ({ s with message := .str "Registration failed" }, sent)

/-- The handler `handleAddEntry` before its `await` (lines 145-146): `setMessage("")`. -/
def handleAddEntrySubmit (s : AppState) : AppState :=
  { s with message := .str "" }

/-- The handler `handleAddEntry` (lines 148-175), closure of the render `c`, once its
request has settled with `r` in state `s`. -/
def handleAddEntry (c : AppState) (r : Response) (s : AppState) : AppState × List Request :=
  let sent := [Request.postCreateEntry c.username c.entryForm]
  match r with
  | .resolved status _ =>
    if status = 201 then
      ({ s with message := .str "Entry created successfully",
                entryForm := defaultEntryForm },
        sent ++ [.getEntries c.username, .getStats c.username c.statsMonth c.statsYear])
    else ({ s with message := .str "Failed to create entry" }, sent)
  | .rejected e =>
    match errorPayload e with
    | some d => ({ s with message := d }, sent)
    | none => ({ s with message := .str "Failed to create entry" }, sent)

/-- The handler `handleDeleteEntry` (lines 178-194), closure of the render `c`;
`confirmed` is the answer of `window.confirm`. It writes nothing before its `await`. -/
def handleDeleteEntry (c : AppState) (eid : Option Nat) (confirmed : Bool) (r : Response)
    (s : AppState) : AppState × List Request :=
  if !confirmed then (s, [])
  else
    let sent := [Request.deleteEntry eid]
    match r with
    | .resolved status _ =>
      let s1 := if status = 204 then { s with message := .str "Entry deleted" }
                else { s with message := .str "Entry deleted" }
      (s1, sent ++ [.getEntries c.username, .getStats c.username c.statsMonth c.statsYear])
    | .rejected _ => ({ s with message := .str "Failed to delete entry" }, sent)

/-- The handler `handleLogout` (lines 196-203): six setters, no request. -/
def handleLogout (s : AppState) : AppState × List Request :=
  ({ s with isLoggedIn := false, username := "", password := "", entries := [],
            stats := .null, message := .str "Logged out" }, [])

/-! ## Operations and event sequences -/

/-- The remote operations of the component: login, register, load of the entries,
create, (confirmed) delete and stats refresh. -/
inductive Operation
  | login
  | register
  | load (uname : String)
  | create
  | delete (eid : Option Nat)
  | statsRefresh (uname : String) (month year : Double)
  deriving DecidableEq

/-- The write the handler of an operation makes before its `await`. -/
def Operation.submit : Operation → AppState → AppState
  | .login => handleLoginSubmit
  | .register => handleRegisterSubmit
  | .create => handleAddEntrySubmit
  | .load _ => id
  | .delete _ => id
  | .statsRefresh _ _ _ => id

/-- The handler of an operation as a closure of the render `c`, once its request has
settled; a delete is one the user confirmed. -/
def Operation.settle : Operation → AppState → Response → AppState → AppState × List Request
  | .login, c => handleLogin c
  | .register, c => handleRegister c
  | .load uname, _ => fetchEntries uname
  | .create, c => handleAddEntry c
  | .delete eid, c => handleDeleteEntry c eid true
  | .statsRefresh uname month year, _ => fetchStats uname month year

/-- An operation carried out from state `s` with nothing else happening until its request
settles: the handler of the render `s` writes what it writes before the `await`, and the
request settles in the state that leaves. -/
def Operation.perform (op : Operation) (r : Response) (s : AppState) :
    AppState × List Request :=
  op.settle s r (op.submit s)

/-- The outcomes that take the success branch of the handler: status 200 for login
(line 72), 201 for register and create (lines 99, 153), an array body for the load
(line 118), any resolved request for delete and stats refresh (lines 182-189, 137). -/
def Operation.succeeds : Operation → Response → Bool
  | .login, .resolved status _ => status == 200
  | .register, .resolved status _ => status == 201
  | .load _, .resolved _ d => d.asArray.isSome
  | .create, .resolved status _ => status == 201
  | .delete _, .resolved _ _ => true
  | .statsRefresh _ _ _, .resolved _ _ => true
  | _, .rejected _ => false

/-- User events and handler completions that move the component from state to state:
typing in the username field (line 257), and the handlers run with the outcome of their
request. -/
inductive Event
  | typeUsername (value : String)
  | login (r : Response)
  | register (r : Response)
  | logout
  | load (uname : String) (r : Response)
  | create (r : Response)
  | delete (eid : Option Nat) (confirmed : Bool) (r : Response)
  | statsRefresh (uname : String) (month year : Double) (r : Response)
  deriving DecidableEq

/-- The state after one event. Every event is taken as possible in every state, which
covers at least what the two screens offer. -/
def step (s : AppState) : Event → AppState
  | .typeUsername value => { s with username := value }
  | .login r => (Operation.perform .login r s).1
  | .register r => (Operation.perform .register r s).1
  | .logout => (handleLogout s).1
  | .load uname r => (fetchEntries uname r s).1
  | .create r => (Operation.perform .create r s).1
  | .delete eid confirmed r => (handleDeleteEntry s eid confirmed r s).1
  | .statsRefresh uname month year r => (fetchStats uname month year r s).1

/-- The state reached from `s` by a sequence of events, oldest first. -/
def run (events : List Event) (s : AppState) : AppState :=
  events.foldl step s

/-- The text a trace leaves in the username field: what was typed last since the start
or the last logout, empty when nothing was typed since. -/
def typedUsername (events : List Event) : String :=
  events.foldl
    (fun typed ev =>
      match ev with
      | .typeUsername value => value
      | .logout => ""
      | _ => typed)
    ""

/-- The state of the scenario after alice logged in and her one entry was loaded. -/
def aliceLoaded : AppState :=
  { initialState (Double.ofNat 3) (Double.ofNat 2024) with
    username := "alice", password := "pw1", isLoggedIn := true, entries := [coffee] }

/-- The state of the login screen once alice typed her credentials. -/
def aliceTyped : AppState :=
  { initialState (Double.ofNat 3) (Double.ofNat 2024) with
    username := "alice", password := "pw1" }

/-- The state `aliceLoaded` after a logout. -/
def aliceLoggedOut : AppState :=
  (handleLogout aliceLoaded).1


/-! ## Lemmas on rounding -/

theorem excessBits_spec (fuel n : Nat) (h : n ≤ fuel) :
    n / 2 ^ excessBits fuel n < 2 ^ 53 ∧
      (0 < excessBits fuel n → 2 ^ 52 ≤ n / 2 ^ excessBits fuel n) := by
  induction fuel generalizing n with
  | zero =>
    have hn : n = 0 := by omega
    subst hn
    simp [excessBits]
  | succ fuel ih =>
    unfold excessBits
    by_cases hlt : n < 2 ^ 53
    · simp only [if_pos hlt]
      exact ⟨by simpa using hlt, fun h0 => absurd h0 (by omega)⟩
    · simp only [if_neg hlt]
      have hn : 2 ^ 53 ≤ n := Nat.le_of_not_lt hlt
      have hhalf : n / 2 ≤ fuel := by
        have : (2 : Nat) ^ 53 = 9007199254740992 := by norm_num
        omega
      have hdiv : n / 2 ^ (excessBits fuel (n / 2) + 1) = n / 2 / 2 ^ excessBits fuel (n / 2) := by
        rw [pow_succ', Nat.div_div_eq_div_mul]
      rw [hdiv]
      obtain ⟨h1, h2⟩ := ih (n / 2) hhalf
      refine ⟨h1, fun _ => ?_⟩
      by_cases ht : 0 < excessBits fuel (n / 2)
      · exact h2 ht
      · have ht0 : excessBits fuel (n / 2) = 0 := by omega
        rw [ht0, pow_zero, Nat.div_one]
        have : (2 : Nat) ^ 53 = 2 * 2 ^ 52 := by norm_num
        omega

theorem excessBits_le (fuel n s : Nat) (h : n ≤ fuel) (hs : n / 2 ^ s < 2 ^ 53) :
    excessBits fuel n ≤ s := by
  by_contra hcon
  have hlt : s < excessBits fuel n := Nat.lt_of_not_le hcon
  obtain ⟨_, h2⟩ := excessBits_spec fuel n h
  have h52 := h2 (by omega)
  have hle : n / 2 ^ excessBits fuel n ≤ n / 2 ^ (s + 1) :=
    Nat.div_le_div_left (Nat.pow_le_pow_right (by norm_num) hlt) (by positivity)
  have hdiv : n / 2 ^ (s + 1) = n / 2 ^ s / 2 := by
    rw [pow_succ, Nat.div_div_eq_div_mul]
  rw [hdiv] at hle
  have : (2 : Nat) ^ 53 = 2 * 2 ^ 52 := by norm_num
  omega

/-- Rounding `p` with the low `t` bits dropped. -/
theorem roundNat_eq (p : Nat) :
    roundNat p =
      (if 2 ^ excessBits p p < 2 * (p % 2 ^ excessBits p p) ∨
          (2 * (p % 2 ^ excessBits p p) = 2 ^ excessBits p p ∧
            p / 2 ^ excessBits p p % 2 = 1)
        then p / 2 ^ excessBits p p + 1 else p / 2 ^ excessBits p p) * 2 ^ excessBits p p :=
  rfl

theorem roundUnits_zero (negative : Bool) (p : Nat) :
    roundUnits negative p 0 =
      if roundNat p < 2 ^ 2098 then .num (.fin negative (roundNat p))
      else .num (.inf negative) := by
  simp only [roundUnits, roundNat, pow_zero, Nat.div_one, zero_add, Nat.sub_zero]

theorem roundUnits_of_zero (negative : Bool) (k : Nat) :
    roundUnits negative 0 k = .num (.fin negative 0) := by
  have hpos : 0 < 2 ^ 2098 := by positivity
  simp only [roundUnits, excessBits, Nat.zero_div, Nat.zero_mod, add_zero, mul_zero]
  have hc : ¬ (2 ^ k < 0 ∨ (0 = 2 ^ k ∧ 0 % 2 = 1)) := by
    rintro (h | ⟨_, h⟩)
    · exact Nat.not_lt_zero _ h
    · exact absurd h (by decide)
  rw [if_neg hc, Nat.zero_mul, if_pos hpos]

theorem div_le_roundNat (p : Nat) :
    p / 2 ^ excessBits p p * 2 ^ excessBits p p ≤ roundNat p := by
  rw [roundNat_eq]
  apply Nat.mul_le_mul_right
  split <;> omega

theorem roundNat_le (p : Nat) : roundNat p ≤ 2 ^ 53 * 2 ^ excessBits p p := by
  rw [roundNat_eq]
  apply Nat.mul_le_mul_right
  have := (excessBits_spec p p le_rfl).1
  split <;> omega

theorem roundNat_ne_zero (p : Nat) (hp : p ≠ 0) : roundNat p ≠ 0 := by
  have hq : 1 ≤ p / 2 ^ excessBits p p := by
    by_cases ht : 0 < excessBits p p
    · have := (excessBits_spec p p le_rfl).2 ht
      have : (1 : Nat) ≤ 2 ^ 52 := by norm_num
      omega
    · have ht0 : excessBits p p = 0 := by omega
      rw [ht0, pow_zero, Nat.div_one]
      omega
  have hpos : 0 < p / 2 ^ excessBits p p * 2 ^ excessBits p p :=
    Nat.mul_pos hq (by positivity)
  have := div_le_roundNat p
  omega

theorem roundNat_mono {p p' : Nat} (h : p ≤ p') : roundNat p ≤ roundNat p' := by
  have ht : excessBits p p ≤ excessBits p' p' := by
    apply excessBits_le p p _ le_rfl
    exact lt_of_le_of_lt (Nat.div_le_div_right h) (excessBits_spec p' p' le_rfl).1
  rcases Nat.eq_or_lt_of_le ht with heq | hlt
  · -- the same number of bits is dropped
    rw [roundNat_eq p, roundNat_eq p', ← heq]
    generalize excessBits p p = t
    have hD : 0 < 2 ^ t := by positivity
    generalize hDd : 2 ^ t = D at hD
    have hq : p / D ≤ p' / D := Nat.div_le_div_right h
    have e1 := Nat.div_add_mod p D
    have e2 := Nat.div_add_mod p' D
    apply Nat.mul_le_mul_right
    rcases Nat.eq_or_lt_of_le hq with hqe | hql
    · have hr : p % D ≤ p' % D := by
        rw [← hqe] at e2
        have : D * (p / D) + p % D ≤ D * (p / D) + p' % D := by omega
        omega
      rw [← hqe]
      split <;> split <;> omega
    · split <;> split <;> omega
  · -- more bits are dropped from `p'`
    have h1 := roundNat_le p
    have h2 := div_le_roundNat p'
    have h52 := (excessBits_spec p' p' le_rfl).2 (by omega)
    have h3 : 2 ^ 52 * 2 ^ excessBits p' p' ≤ p' / 2 ^ excessBits p' p' * 2 ^ excessBits p' p' :=
      Nat.mul_le_mul_right _ h52
    have h4 : 2 ^ 53 * 2 ^ excessBits p p ≤ 2 ^ 52 * 2 ^ excessBits p' p' := by
      rw [← pow_add, ← pow_add]
      exact Nat.pow_le_pow_right (by norm_num) (by omega)
    omega

theorem roundNat_of_dvd (u : Nat) (h : 2 ^ excessBits u u ∣ u) : roundNat u = u := by
  rw [roundNat_eq]
  have hmod : u % 2 ^ excessBits u u = 0 := Nat.mod_eq_zero_of_dvd h
  have hpos : 0 < 2 ^ excessBits u u := by positivity
  rw [hmod]
  have hc : ¬ (2 ^ excessBits u u < 2 * 0 ∨
      (2 * 0 = 2 ^ excessBits u u ∧ u / 2 ^ excessBits u u % 2 = 1)) := by
    omega
  rw [if_neg hc]
  exact Nat.div_mul_cancel h

theorem roundNat_idem (p : Nat) : roundNat (roundNat p) = roundNat p := by
  apply roundNat_of_dvd
  have hle := roundNat_le p
  obtain ⟨q1, hq1⟩ : ∃ q1, roundNat p = q1 * 2 ^ excessBits p p := by
    rw [roundNat_eq]
    exact ⟨_, rfl⟩
  have hpos : 0 < 2 ^ excessBits p p := by positivity
  have hq1le : q1 ≤ 2 ^ 53 := by
    rw [hq1] at hle
    exact Nat.le_of_mul_le_mul_right hle hpos
  rcases Nat.eq_or_lt_of_le hq1le with heq | hlt
  · have hu : roundNat p = 2 ^ (53 + excessBits p p) := by
      rw [hq1, heq, pow_add]
    have hdiv : roundNat p / 2 ^ (excessBits p p + 1) < 2 ^ 53 := by
      rw [hu, Nat.pow_div (by omega) (by norm_num)]
      have : 53 + excessBits p p - (excessBits p p + 1) = 52 := by omega
      rw [this]
      norm_num
    have ht := excessBits_le _ _ _ le_rfl hdiv
    have hd : 2 ^ (excessBits p p + 1) ∣ roundNat p := by
      rw [hu]
      exact Nat.pow_dvd_pow 2 (by omega)
    exact (Nat.pow_dvd_pow 2 ht).trans hd
  · have hdiv : roundNat p / 2 ^ excessBits p p < 2 ^ 53 := by
      rw [hq1, Nat.mul_div_cancel _ hpos]
      exact hlt
    have ht := excessBits_le _ _ _ le_rfl hdiv
    have hd : 2 ^ excessBits p p ∣ roundNat p := by
      rw [hq1]
      exact Dvd.intro_left q1 rfl
    exact (Nat.pow_dvd_pow 2 ht).trans hd


/-! ## Lemmas on sums and products of numbers -/

theorem roundUnits_zero_ne_negZero (negative : Bool) (p : Nat) (hp : p ≠ 0) :
    roundUnits negative p 0 ≠ .num (.fin true 0) := by
  rw [roundUnits_zero]
  have := roundNat_ne_zero p hp
  split
  · intro h
    injection h with h
    injection h with _ h
    exact this h
  · intro h
    injection h with h
    cases h

theorem add_ne_negZero (acc x : Double) (h : acc ≠ .num (.fin true 0)) :
    Double.add acc x ≠ .num (.fin true 0) := by
  rcases acc with _ | ⟨s, m⟩ | a <;> rcases x with _ | ⟨t, n⟩ | b
  all_goals simp only [Double.add]
  all_goals try (intro hcon; cases hcon)
  · -- finite + finite
    by_cases hst : s = t
    · rw [if_pos hst]
      by_cases hp : m + n = 0
      · have hm : m = 0 := by omega
        rw [hp, roundUnits_of_zero]
        subst hm
        intro hcon
        injection hcon with hcon
        injection hcon with hs _
        exact h (by rw [hs])
      · exact roundUnits_zero_ne_negZero s _ hp
    · rw [if_neg hst]
      by_cases hmn : m = n
      · rw [if_pos hmn]
        intro hcon
        injection hcon with hcon
        injection hcon with hs _
        cases hs
      · rw [if_neg hmn]
        split
        · exact roundUnits_zero_ne_negZero s _ (by omega)
        · exact roundUnits_zero_ne_negZero t _ (by omega)
  · -- infinite + infinite
    split
    · intro hcon
      cases hcon
    · intro hcon
      cases hcon

theorem add_zero_sign (acc : Double) (h : acc ≠ .num (.fin true 0)) (s t : Bool) :
    Double.add acc (.num (.fin s 0)) = Double.add acc (.num (.fin t 0)) := by
  rcases acc with _ | ⟨a, m⟩ | a
  · rfl
  · have key : ∀ u : Bool, Double.add (.num (.fin a m)) (.num (.fin u 0)) =
        if m = 0 then .num (.fin false 0) else roundUnits a m 0 := by
      intro u
      simp only [Double.add]
      by_cases hm : m = 0
      · subst hm
        have ha : a = false := by
          cases a
          · rfl
          · exact absurd rfl h
        subst ha
        cases u
        · simp [roundUnits_of_zero]
        · simp
      · by_cases hau : a = u
        · simp only [if_pos hau, if_neg hm, Nat.add_zero]
        · simp only [if_neg hau, if_neg hm, if_pos (Nat.pos_of_ne_zero hm), Nat.sub_zero]
    rw [key s, key t]
  · rfl

theorem mul_zero_sign (s t : Bool) (y : Double) :
    (Double.mul (.num (.fin s 0)) y = Double.mul (.num (.fin t 0)) y) ∨
    (∃ u v, Double.mul (.num (.fin s 0)) y = .num (.fin u 0) ∧
      Double.mul (.num (.fin t 0)) y = .num (.fin v 0)) := by
  rcases y with _ | ⟨b, n⟩ | b
  · exact Or.inl rfl
  · right
    exact ⟨s != b, t != b, by simp [Double.mul, roundUnits_of_zero],
      by simp [Double.mul, roundUnits_of_zero]⟩
  · left
    simp [Double.mul]

theorem mul_sign_zero (x : Double) (s t : Bool) :
    (Double.mul x (.num (.fin s 0)) = Double.mul x (.num (.fin t 0))) ∨
    (∃ u v, Double.mul x (.num (.fin s 0)) = .num (.fin u 0) ∧
      Double.mul x (.num (.fin t 0)) = .num (.fin v 0)) := by
  rcases x with _ | ⟨a, m⟩ | a
  · exact Or.inl rfl
  · right
    exact ⟨a != s, a != t, by simp [Double.mul, roundUnits_of_zero],
      by simp [Double.mul, roundUnits_of_zero]⟩
  · left
    simp [Double.mul]

theorem orZero_cases (o : Option JsonNumber) :
    orZero o = o.getD (.fin false 0) ∨
      (orZero o = .fin false 0 ∧ ∃ t, o.getD (.fin false 0) = .fin t 0) := by
  rcases o with _ | x
  · exact Or.inl rfl
  · rcases x with ⟨s, n⟩ | b
    · by_cases hn : n = 0
      · subst hn
        exact Or.inr ⟨by simp [orZero, JsonNumber.truthy], s, rfl⟩
      · exact Or.inl (by simp [orZero, JsonNumber.truthy, hn])
    · exact Or.inl (by simp [orZero, JsonNumber.truthy])

theorem codeLine_lineTotal (e : Entry) :
    (Double.mul (.num (orZero e.quantity)) (.num (orZero e.price)) = lineTotal e) ∨
    (∃ u v, Double.mul (.num (orZero e.quantity)) (.num (orZero e.price)) = .num (.fin u 0) ∧
      lineTotal e = .num (.fin v 0)) := by
  unfold lineTotal
  rcases orZero_cases e.quantity with hq | ⟨hq, tq, hq'⟩ <;>
    rcases orZero_cases e.price with hp | ⟨hp, tp, hp'⟩
  · left
    rw [hq, hp]
  · rw [hq, hp, hp']
    exact mul_sign_zero _ false tp
  · rw [hq, hp, hq']
    exact mul_zero_sign false tq _
  · right
    rw [hq, hp, hq', hp']
    exact ⟨false != false, tq != tp, by simp [Double.mul, roundUnits_of_zero],
      by simp [Double.mul, roundUnits_of_zero]⟩

theorem foldl_code_eq_lineTotal (l : List Entry) (acc : Double)
    (h : acc ≠ .num (.fin true 0)) :
    l.foldl
      (fun sum e => Double.add sum (Double.mul (.num (orZero e.quantity)) (.num (orZero e.price))))
      acc = (l.map lineTotal).foldl Double.add acc := by
  induction l generalizing acc with
  | nil => rfl
  | cons e es ih =>
    simp only [List.foldl_cons, List.map_cons]
    have hstep : Double.add acc (Double.mul (.num (orZero e.quantity)) (.num (orZero e.price))) =
        Double.add acc (lineTotal e) := by
      rcases codeLine_lineTotal e with heq | ⟨u, v, hu, hv⟩
      · rw [heq]
      · rw [hu, hv]
        exact add_zero_sign acc h u v
    rw [hstep]
    exact ih _ (add_ne_negZero acc _ h)

theorem totalSpentFiltered_eq_doubleSum (l : List Entry) :
    totalSpentFiltered l = doubleSum (l.map lineTotal) :=
  foldl_code_eq_lineTotal l Double.zero (by decide)


/-! ## Lemmas on sums of non-negative numbers -/

theorem roundUnits_cases (negative : Bool) (p k : Nat) :
    (∃ u, roundUnits negative p k = .num (.fin negative u)) ∨
      roundUnits negative p k = .num (.inf negative) := by
  unfold roundUnits
  dsimp only
  split_ifs <;> first
    | exact Or.inl ⟨_, rfl⟩
    | exact Or.inr rfl

theorem roundUnits_nonNeg (p k : Nat) : NonNeg (roundUnits false p k) := by
  rcases roundUnits_cases false p k with ⟨u, h⟩ | h
  · exact Or.inr ⟨u, h⟩
  · exact Or.inl h

theorem Settled.nonNeg {d : Double} (h : Settled d) : NonNeg d := by
  rcases h with h | ⟨n, h, _⟩
  · exact Or.inl h
  · exact Or.inr ⟨n, h⟩

theorem settled_zero : Settled Double.zero :=
  Or.inr ⟨0, rfl, by simp [roundNat, excessBits]⟩

theorem le_fin_fin (m n : Nat) :
    Double.le (.num (.fin false m)) (.num (.fin false n)) = decide (m ≤ n) := by
  simp [Double.le, signedUnits]

theorem zero_le_of_nonNeg {d : Double} (h : NonNeg d) : Double.le Double.zero d = true := by
  rcases h with h | ⟨n, h⟩
  · subst h
    rfl
  · subst h
    simp [Double.zero, le_fin_fin]

theorem le_trans_of_nonNeg {a b c : Double} (ha : NonNeg a) (hb : NonNeg b) (hc : NonNeg c)
    (hab : Double.le a b = true) (hbc : Double.le b c = true) : Double.le a c = true := by
  rcases ha with ha | ⟨m, ha⟩ <;> rcases hb with hb | ⟨n, hb⟩ <;>
    rcases hc with hc | ⟨k, hc⟩ <;> subst ha <;> subst hb <;> subst hc
  all_goals first
    | rfl
    | (simp [Double.le] at hab; done)
    | (simp [Double.le] at hbc; done)
    | (simp only [le_fin_fin, decide_eq_true_eq] at hab hbc ⊢; omega)

theorem add_fin_fin (m n : Nat) :
    Double.add (.num (.fin false m)) (.num (.fin false n)) =
      if roundNat (m + n) < 2 ^ 2098 then .num (.fin false (roundNat (m + n)))
      else .num (.inf false) := by
  simp only [Double.add, if_true, roundUnits_zero]

theorem add_settled {a x : Double} (ha : Settled a) (hx : NonNeg x) :
    Settled (Double.add a x) := by
  rcases ha with ha | ⟨m, ha, _⟩ <;> rcases hx with hx | ⟨n, hx⟩ <;> subst ha <;> subst hx
  · exact Or.inl rfl
  · exact Or.inl rfl
  · exact Or.inl rfl
  · rw [add_fin_fin]
    split
    · exact Or.inr ⟨_, rfl, roundNat_idem _⟩
    · exact Or.inl rfl

theorem le_add_of_settled {a x : Double} (ha : Settled a) (hx : NonNeg x) :
    Double.le a (Double.add a x) = true := by
  rcases ha with ha | ⟨m, ha, hm⟩ <;> rcases hx with hx | ⟨n, hx⟩ <;> subst ha <;> subst hx
  · rfl
  · rfl
  · rfl
  · rw [add_fin_fin]
    split
    · rw [le_fin_fin, decide_eq_true_eq]
      calc m = roundNat m := hm.symm
        _ ≤ roundNat (m + n) := roundNat_mono (Nat.le_add_right m n)
    · rfl

theorem add_le_add_of_nonNeg {a b x : Double} (ha : NonNeg a) (hb : NonNeg b)
    (hx : NonNeg x) (hab : Double.le a b = true) :
    Double.le (Double.add a x) (Double.add b x) = true := by
  rcases ha with ha | ⟨m, ha⟩ <;> rcases hb with hb | ⟨n, hb⟩ <;>
    rcases hx with hx | ⟨k, hx⟩ <;> subst ha <;> subst hb <;> subst hx
  · rfl
  · rfl
  · simp [Double.le] at hab
  · simp [Double.le] at hab
  · rfl
  · rw [add_fin_fin]
    split <;> rfl
  · rfl
  · have hmn : m ≤ n := by simpa [le_fin_fin] using hab
    have hr : roundNat (m + k) ≤ roundNat (n + k) := roundNat_mono (by omega)
    rw [add_fin_fin, add_fin_fin]
    split <;> split
    · rw [le_fin_fin, decide_eq_true_eq]
      exact hr
    · rfl
    · omega
    · rfl

theorem foldl_add_settled (l : List Double) (a : Double) (ha : Settled a)
    (hl : ∀ x ∈ l, NonNeg x) : Settled (l.foldl Double.add a) := by
  induction l generalizing a with
  | nil => exact ha
  | cons x xs ih =>
    simp only [List.foldl_cons]
    exact ih _ (add_settled ha (hl x (List.mem_cons_self x xs)))
      (fun y hy => hl y (List.mem_cons_of_mem x hy))

theorem foldl_add_le_of_sublist {l₁ l₂ : List Double} (h : l₁.Sublist l₂) :
    ∀ a b : Double, Settled a → Settled b → Double.le a b = true →
      (∀ x ∈ l₂, NonNeg x) →
      Double.le (l₁.foldl Double.add a) (l₂.foldl Double.add b) = true := by
  induction h with
  | slnil => intro a b _ _ hab _; exact hab
  | @cons l₁ l₂ x _ ih =>
    intro a b ha hb hab hl
    have hx : NonNeg x := hl x (List.mem_cons_self x l₂)
    simp only [List.foldl_cons]
    apply ih a (Double.add b x) ha (add_settled hb hx) _
      (fun y hy => hl y (List.mem_cons_of_mem x hy))
    exact le_trans_of_nonNeg ha.nonNeg hb.nonNeg (add_settled hb hx).nonNeg hab
      (le_add_of_settled hb hx)
  | @cons₂ l₁ l₂ x _ ih =>
    intro a b ha hb hab hl
    have hx : NonNeg x := hl x (List.mem_cons_self x l₂)
    simp only [List.foldl_cons]
    exact ih _ _ (add_settled ha hx) (add_settled hb hx)
      (add_le_add_of_nonNeg ha.nonNeg hb.nonNeg hx hab)
      (fun y hy => hl y (List.mem_cons_of_mem x hy))

theorem orZero_nonNeg (o : Option JsonNumber)
    (h : ∀ q, o = some q → q.isFinite = true ∧ Double.le Double.zero (.num q) = true) :
    ∃ n, orZero o = .fin false n := by
  rcases o with _ | q
  · exact ⟨0, rfl⟩
  · obtain ⟨hfin, hle⟩ := h q rfl
    rcases q with ⟨s, n⟩ | b
    · by_cases hn : n = 0
      · exact ⟨0, by simp [orZero, JsonNumber.truthy, hn]⟩
      · cases s
        · exact ⟨n, by simp [orZero, JsonNumber.truthy, hn]⟩
        · simp [Double.le, Double.zero, signedUnits] at hle
          omega
    · simp [JsonNumber.isFinite] at hfin

theorem codeLine_nonNeg (e : Entry)
    (h : (∀ q, e.quantity = some q →
            q.isFinite = true ∧ Double.le Double.zero (.num q) = true) ∧
         (∀ p, e.price = some p →
            p.isFinite = true ∧ Double.le Double.zero (.num p) = true)) :
    NonNeg (Double.mul (.num (orZero e.quantity)) (.num (orZero e.price))) := by
  obtain ⟨a, ha⟩ := orZero_nonNeg e.quantity h.1
  obtain ⟨b, hb⟩ := orZero_nonNeg e.price h.2
  rw [ha, hb]
  exact roundUnits_nonNeg (a * b) 1074

theorem totalSpentFiltered_eq_foldl_map (l : List Entry) :
    totalSpentFiltered l =
      (l.map fun e => Double.mul (.num (orZero e.quantity)) (.num (orZero e.price))).foldl
        Double.add Double.zero := by
  rw [totalSpentFiltered, List.foldl_map]


/-! ## Evaluations of the arithmetic -/

set_option maxRecDepth 100000 in
set_option exponentiation.threshold 5000 in
theorem coffee_total : totalSpentFiltered [coffee] = Double.ofNat 7 := by
  decide

set_option maxRecDepth 100000 in
set_option exponentiation.threshold 5000 in
/-- Rounding is the rounding of doubles: `3 * 0.1` is `0.30000000000000004` (the double
`5404319552844596 / 2^54`), and `0.1 + 0.2` is the same double. -/
theorem three_tenths_rounds :
    Double.mul (Double.ofNat 3) (.num (.dyadic 3602879701896397 55)) =
      .num (.dyadic 5404319552844596 54) ∧
    Double.add (.num (.dyadic 3602879701896397 55)) (.num (.dyadic 3602879701896397 54)) =
      .num (.dyadic 5404319552844596 54) ∧
    Double.add (Double.ofNat 9007199254740992) (Double.ofNat 1) =
      Double.ofNat 9007199254740992 := by
  decide


set_option maxRecDepth 100000 in
set_option exponentiation.threshold 5000 in
theorem nonNeg_coffee_tea :
    ∀ e ∈ [coffee, tea],
      (∀ q, e.quantity = some q →
        q.isFinite = true ∧ Double.le Double.zero (.num q) = true) ∧
      (∀ p, e.price = some p →
        p.isFinite = true ∧ Double.le Double.zero (.num p) = true) := by
  intro e he
  simp only [List.mem_cons, List.mem_singleton, List.not_mem_nil, or_false] at he
  rcases he with rfl | rfl
  · constructor
    · intro q hq
      have : q = .ofNat 2 := by
        simp only [coffee, Option.some.injEq] at hq
        exact hq.symm
      subst this
      exact ⟨rfl, by decide⟩
    · intro p hp
      have : p = .dyadic 7 1 := by
        simp only [coffee, Option.some.injEq] at hp
        exact hp.symm
      subst this
      exact ⟨rfl, by decide⟩
  · constructor
    · intro q hq
      have : q = .ofNat 3 := by
        simp only [tea, Option.some.injEq] at hq
        exact hq.symm
      subst this
      exact ⟨rfl, by decide⟩
    · intro p hp
      have : p = .dyadic 3 1 := by
        simp only [tea, Option.some.injEq] at hp
        exact hp.symm
      subst this
      exact ⟨rfl, by decide⟩


/-! ## Lemmas on the filter and on the event steps -/

theorem includesChars_iff_infix (needle hay : List Char) :
    includesChars needle hay = true ↔ needle <:+: hay := by
  induction hay with
  | nil => simp [includesChars, List.isEmpty_iff]
  | cons c cs ih =>
    simp only [includesChars, Bool.or_eq_true, ih, List.infix_cons_iff]
    rw [ List.isPrefixOf_iff_prefix]

theorem truthy_fieldIncludes_iff (L : LowerCase) (field : Option String)
    (searchTerm : String) :
    truthyOptBool (fieldIncludes L field searchTerm) = true ↔
      ∃ v, field = some v ∧
        (L.toLowerCase searchTerm).data <:+: (L.toLowerCase v).data := by
  cases field with
  | none => simp [fieldIncludes, truthyOptBool]
  | some v => simp [fieldIncludes, truthyOptBool, includes, includesChars_iff_infix]

theorem matchesSearch_iff (L : LowerCase) (searchTerm : String) (e : Entry) :
    matchesSearch L searchTerm e = true ↔
      (searchTerm = "" ∨
        (∃ v, e.name = some v ∧
          (L.toLowerCase searchTerm).data <:+: (L.toLowerCase v).data) ∨
        (∃ v, e.type = some v ∧
          (L.toLowerCase searchTerm).data <:+: (L.toLowerCase v).data) ∨
        (∃ v, e.note = some v ∧
          (L.toLowerCase searchTerm).data <:+: (L.toLowerCase v).data)) := by
  simp only [matchesSearch, Bool.or_eq_true, truthy_fieldIncludes_iff, beq_iff_eq, or_assoc]

theorem matchesMode_iff (L : LowerCase) (filterMode : String) (e : Entry) :
    matchesMode L filterMode e = true ↔
      (filterMode = "all" ∨
        ∃ md, e.mode = some md ∧ md ≠ "" ∧
          L.toLowerCase md = L.toLowerCase filterMode) := by
  unfold matchesMode
  cases e.mode with
  | none => simp
  | some md => simp

theorem filteredEntries_all_eq_self (L : LowerCase) (E : List Entry) :
    filteredEntries L E "" "all" = E := by
  unfold filteredEntries
  rw [List.filter_eq_self]
  intro e _
  simp [matchesSearch, matchesMode]

theorem toLowerCase_cash (L : LowerCase) : L.toLowerCase "cash" = "cash" := by
  rw [L.ascii "cash" (by decide)]
  rfl

theorem toLowerCase_upi (L : LowerCase) : L.toLowerCase "upi" = "upi" := by
  rw [L.ascii "upi" (by decide)]
  rfl

theorem coffee_passes_any_case (L : LowerCase) :
    matchesSearch L "COFF" coffee = true ∧ matchesMode L "CASH" coffee = true := by
  have h1 : L.toLowerCase "COFF" = "coff" := by
    rw [L.ascii "COFF" (by decide)]
    rfl
  have h2 : L.toLowerCase "Coffee" = "coffee" := by
    rw [L.ascii "Coffee" (by decide)]
    rfl
  have h3 : L.toLowerCase "CASH" = "cash" := by
    rw [L.ascii "CASH" (by decide)]
    rfl
  constructor
  · rw [matchesSearch_iff]
    right
    left
    refine ⟨"Coffee", rfl, ?_⟩
    rw [h1, h2, ← includesChars_iff_infix]
    decide
  · rw [matchesMode_iff]
    right
    exact ⟨"cash", rfl, by decide, by rw [toLowerCase_cash, h3]⟩

theorem coffee_fails_other_text (L : LowerCase) :
    matchesSearch L "tea" coffee = false := by
  have h1 : L.toLowerCase "tea" = "tea" := by
    rw [L.ascii "tea" (by decide)]
    rfl
  have h2 : L.toLowerCase "Coffee" = "coffee" := by
    rw [L.ascii "Coffee" (by decide)]
    rfl
  have h3 : L.toLowerCase "Food" = "food" := by
    rw [L.ascii "Food" (by decide)]
    rfl
  simp only [matchesSearch, fieldIncludes, coffee, Option.map, truthyOptBool, h1, h2, h3]
  decide


theorem step_username (s : AppState) (ev : Event) :
    (step s ev).username =
      (match ev with
       | .typeUsername value => value
       | .logout => ""
       | _ => s.username) := by
  cases ev with
  | typeUsername value => rfl
  | logout => rfl
  | login r =>
    cases r with
    | resolved status d =>
      simp only [step, Operation.perform, Operation.settle, Operation.submit, handleLogin]
      split <;> rfl
    | rejected e =>
      simp only [step, Operation.perform, Operation.settle, Operation.submit, handleLogin]
      split <;> rfl
  | register r =>
    cases r with
    | resolved status d =>
      simp only [step, Operation.perform, Operation.settle, Operation.submit, handleRegister]
      split <;> rfl
    | rejected e =>
      simp only [step, Operation.perform, Operation.settle, Operation.submit, handleRegister]
      split <;> rfl
  | load uname r =>
    cases r with
    | resolved status d => cases d <;> rfl
    | rejected e => rfl
  | create r =>
    cases r with
    | resolved status d =>
      simp only [step, Operation.perform, Operation.settle, Operation.submit, handleAddEntry]
      split <;> rfl
    | rejected e =>
      simp only [step, Operation.perform, Operation.settle, Operation.submit, handleAddEntry]
      split <;> rfl
  | delete eid confirmed r =>
    cases confirmed with
    | false => rfl
    | true =>
      cases r with
      | resolved status d => by_cases h : status = 204 <;> simp [step, handleDeleteEntry, h]
      | rejected e => rfl
  | statsRefresh uname month year r =>
    cases r with
    | resolved status d => rfl
    | rejected e => rfl

theorem run_username (events : List Event) (s : AppState) (typed : String)
    (h : s.username = typed) :
    (run events s).username =
      events.foldl
        (fun typed ev =>
          match ev with
          | .typeUsername value => value
          | .logout => ""
          | _ => typed)
        typed := by
  induction events generalizing s typed with
  | nil => simpa [run] using h
  | cons ev rest ih =>
    simp only [run, List.foldl_cons]
    apply ih
    rw [step_username, h]

theorem settle_failure (op : Operation) (c : AppState) (r : Response) (s : AppState)
    (h : op.succeeds r = false) :
    (op.settle c r s).1.isLoggedIn = s.isLoggedIn ∧
    (op.settle c r s).1.stats = s.stats ∧
    (op.settle c r s).1.entryForm = s.entryForm ∧
    (op.settle c r s).1.entries =
      (match op, r with
       | .load _, .resolved _ _ => []
       | _, _ => s.entries) := by
  cases op with
  | login =>
    cases r with
    | resolved status d =>
      have hs : status ≠ 200 := by simpa [Operation.succeeds] using h
      simp [Operation.settle, handleLogin, hs]
    | rejected e =>
      simp only [Operation.settle, handleLogin]
      split <;> exact ⟨rfl, rfl, rfl, rfl⟩
  | register =>
    cases r with
    | resolved status d =>
      have hs : status ≠ 201 := by simpa [Operation.succeeds] using h
      simp [Operation.settle, handleRegister, hs]
    | rejected e =>
      simp only [Operation.settle, handleRegister]
      split <;> exact ⟨rfl, rfl, rfl, rfl⟩
  | load uname =>
    cases r with
    | resolved status d =>
      cases d <;> first
        | exact ⟨rfl, rfl, rfl, rfl⟩
        | simp [Operation.succeeds, Data.asArray] at h
    | rejected e => exact ⟨rfl, rfl, rfl, rfl⟩
  | create =>
    cases r with
    | resolved status d =>
      have hs : status ≠ 201 := by simpa [Operation.succeeds] using h
      simp [Operation.settle, handleAddEntry, hs]
    | rejected e =>
      simp only [Operation.settle, handleAddEntry]
      split <;> exact ⟨rfl, rfl, rfl, rfl⟩
  | delete eid =>
    cases r with
    | resolved status d => simp [Operation.succeeds] at h
    | rejected e => exact ⟨rfl, rfl, rfl, rfl⟩
  | statsRefresh uname month year =>
    cases r with
    | resolved status d => simp [Operation.succeeds] at h
    | rejected e => exact ⟨rfl, rfl, rfl, rfl⟩

theorem submit_keeps (op : Operation) (s : AppState) :
    (op.submit s).isLoggedIn = s.isLoggedIn ∧
    (op.submit s).stats = s.stats ∧
    (op.submit s).entryForm = s.entryForm ∧
    (op.submit s).entries = s.entries := by
  cases op <;> exact ⟨rfl, rfl, rfl, rfl⟩


/-! ## The filter engine -/

/-- C1: for every lower-casing of the runtime, an entry of the cache is in
`filteredEntries` exactly when (the search term is empty, or its lower-casing is a
substring of the lower-cased name, type or note the entry has) and (the mode filter is
`"all"`, or the entry has a non-empty mode whose lower-casing equals the lower-cased
filter); absent fields never match. The comparison ignores case: the Coffee entry passes
the search term `COFF` with the mode filter `CASH`, and does not pass the search term
`tea`. -/
theorem filteredEntries_mem_iff :
    (∀ (L : LowerCase) (E : List Entry) (s m : String) (e : Entry),
      e ∈ filteredEntries L E s m ↔
        e ∈ E ∧
        (s = "" ∨
          (∃ v, e.name = some v ∧ (L.toLowerCase s).data <:+: (L.toLowerCase v).data) ∨
          (∃ v, e.type = some v ∧ (L.toLowerCase s).data <:+: (L.toLowerCase v).data) ∨
          (∃ v, e.note = some v ∧ (L.toLowerCase s).data <:+: (L.toLowerCase v).data)) ∧
        (m = "all" ∨
          ∃ md, e.mode = some md ∧ md ≠ "" ∧ L.toLowerCase md = L.toLowerCase m)) ∧
    (∀ L : LowerCase, filteredEntries L [coffee] "COFF" "CASH" = [coffee]) ∧
    (∀ L : LowerCase, filteredEntries L [coffee] "tea" "all" = []) := by
  refine ⟨?_, ?_, ?_⟩
  · intro L E s m e
    simp only [filteredEntries, List.mem_filter, Bool.and_eq_true, matchesSearch_iff,
      matchesMode_iff]
  · intro L
    obtain ⟨h1, h2⟩ := coffee_passes_any_case L
    simp [filteredEntries, h1, h2]
  · intro L
    simp [filteredEntries, coffee_fails_other_text L]

/-- C2: for every cache and criteria, `totalSpentFiltered` is the sum, taken as
JavaScript takes it (binary64 `+` from left to right, from `0`), of the line totals
`quantity * price` (binary64 `*`, a missing factor counting as `0`) over the entries of
`filteredEntries`; on the one-entry cache of the Coffee scenario (quantity `2`, price
`3.5`) with filter `"cash"` it is `7`. -/
theorem totalSpentFiltered_eq_sum :
    (∀ (L : LowerCase) (E : List Entry) (s m : String),
      totalSpentFiltered (filteredEntries L E s m) =
        doubleSum ((filteredEntries L E s m).map lineTotal)) ∧
    (∀ L : LowerCase, filteredEntries L [coffee] "" "cash" = [coffee]) ∧
    (∀ L : LowerCase,
      totalSpentFiltered (filteredEntries L [coffee] "" "cash") = Double.ofNat 7) := by
  have hc : ∀ L : LowerCase, filteredEntries L [coffee] "" "cash" = [coffee] := by
    intro L
    simp [filteredEntries, matchesSearch, matchesMode, coffee]
  refine ⟨fun L E s m => totalSpentFiltered_eq_doubleSum _, hc, fun L => ?_⟩
  rw [hc L]
  exact coffee_total

/-- C3: with the empty search term and the mode filter `"all"` the filter is the
identity on every cache, whatever fields its entries lack. -/
theorem filteredEntries_identity (L : LowerCase) (E : List Entry) :
    filteredEntries L E "" "all" = E := by
  unfold filteredEntries
  rw [List.filter_eq_self]
  intro e _
  simp [matchesSearch, matchesMode]

/-- C4: filtering the output of the filter again with the same criteria changes
nothing. -/
theorem filteredEntries_idempotent (L : LowerCase) (E : List Entry) (s m : String) :
    filteredEntries L (filteredEntries L E s m) s m = filteredEntries L E s m := by
  simp [filteredEntries, List.filter_filter]

/-- C5: the filtered sequence is a sublist of the cache (same relative order, nothing
from outside), its entries are exactly the entries of the cache that pass the filter
callback, and each passing entry occurs in it as often as in the cache (none dropped,
none repeated). -/
theorem filteredEntries_sublist (L : LowerCase) (E : List Entry) (s m : String) :
    (filteredEntries L E s m).Sublist E ∧
    (∀ e, e ∈ filteredEntries L E s m ↔
      e ∈ E ∧ matchesSearch L s e = true ∧ matchesMode L m e = true) ∧
    (∀ e, (filteredEntries L E s m).count e =
      if matchesSearch L s e = true ∧ matchesMode L m e = true then E.count e else 0) := by
  refine ⟨List.filter_sublist E, fun e => ?_, fun e => ?_⟩
  · simp [filteredEntries, List.mem_filter]
  · by_cases hp : matchesSearch L s e = true ∧ matchesMode L m e = true
    · rw [if_pos hp]
      exact List.count_filter (by simp [hp.1, hp.2])
    · rw [if_neg hp]
      apply List.count_eq_zero_of_not_mem
      intro hmem
      have := (List.mem_filter.1 hmem).2
      simp only [Bool.and_eq_true] at this
      exact hp this

/-- C6: on a cache whose entries all have mode `"cash"`, the mode filter `"upi"` leaves
nothing, for every search term, and the filtered total is `0`. -/
theorem filteredEntries_upi_of_cash (L : LowerCase) (E : List Entry) (s : String)
    (h : ∀ e ∈ E, e.mode = some "cash") :
    filteredEntries L E s "upi" = [] ∧
      totalSpentFiltered (filteredEntries L E s "upi") = Double.zero := by
  have hnil : filteredEntries L E s "upi" = [] := by
    unfold filteredEntries
    rw [List.filter_eq_nil_iff]
    intro e he
    have hm : matchesMode L "upi" e = false := by
      unfold matchesMode
      rw [h e he]
      simp only [toLowerCase_cash, toLowerCase_upi]
      decide
    simp [hm]
  rw [hnil]
  exact ⟨rfl, rfl⟩

theorem filteredEntries_upi_of_cash_witness :
    (∀ e ∈ [coffee], e.mode = some "cash") ∧
    filteredEntries asciiLowerCase [coffee] "Coffee" "upi" = [] ∧
    totalSpentFiltered (filteredEntries asciiLowerCase [coffee] "Coffee" "upi") =
      Double.zero :=
  ⟨by simp [coffee],
   filteredEntries_upi_of_cash asciiLowerCase [coffee] "Coffee" (by simp [coffee])⟩


/-! ## Session and entry-store handlers -/

/-- C7: from every state, `handleLogout` leaves `isLoggedIn = false`, empty username and
password, an empty entry cache, `stats = null` and the message `"Logged out"`, and it
issues no request; it takes no request outcome, so it has no failure branch. -/
theorem handleLogout_resets (s : AppState) :
    (handleLogout s).1.isLoggedIn = false ∧
    (handleLogout s).1.username = "" ∧
    (handleLogout s).1.password = "" ∧
    (handleLogout s).1.entries = [] ∧
    (handleLogout s).1.stats = Data.null ∧
    (handleLogout s).1.message = Data.str "Logged out" ∧
    (handleLogout s).2 = [] :=
  ⟨rfl, rfl, rfl, rfl, rfl, rfl, rfl⟩

/-- C8: let `c` be the render in which the form was submitted and `s` any state in which
the create request resolves with status 201 (whatever happened while it was in flight).
What `handleAddEntry` writes before its `await` leaves the entry cache of `c` as it was;
after it, the handler leaves the entry cache of `s` as it was, resets the draft to its
defaults, and has issued its POST for the username and draft of `c`, then the load of the
entries of the username of `c` and the stats refresh for the month and year of `c`; and in
whatever state that load resolves with an array `L`, `fetchEntries` sets the cache to
`L`. For instance, when alice submits the form and logs out while the POST is in flight,
the load issued on the 201 is still the load of the entries of `alice`. -/
theorem handleAddEntry_created (c s : AppState) (d : Data) :
    (handleAddEntrySubmit c).entries = c.entries ∧
    (handleAddEntry c (.resolved 201 d) s).1.entries = s.entries ∧
    (handleAddEntry c (.resolved 201 d) s).1.entryForm = defaultEntryForm ∧
    (handleAddEntry c (.resolved 201 d) s).2 =
      [.postCreateEntry c.username c.entryForm, .getEntries c.username,
        .getStats c.username c.statsMonth c.statsYear] ∧
    (∀ (status : Nat) (L : List Entry) (s2 : AppState),
      (fetchEntries c.username (.resolved status (.arr L)) s2).2 = [.getEntries c.username] ∧
      (fetchEntries c.username (.resolved status (.arr L)) s2).1.entries = L) ∧
    (handleAddEntry aliceLoaded (.resolved 201 .null) aliceLoggedOut).2 =
      [.postCreateEntry "alice" defaultEntryForm, .getEntries "alice",
        .getStats "alice" (Double.ofNat 3) (Double.ofNat 2024)] :=
  ⟨rfl, rfl, rfl, rfl, fun _ _ _ => ⟨rfl, rfl⟩, rfl⟩

/-- C9: when the entries request resolves with body `d`, `fetchEntries` sets the cache to
`d` if `d` is an array and to the empty list otherwise, and the message becomes `d` when
`d` is a string and is left unchanged in every other case (arrays included). -/
theorem fetchEntries_resolved (uname : String) (status : Nat) (d : Data) (s : AppState) :
    (fetchEntries uname (.resolved status d) s).1.entries =
      (match d with
       | .arr items => items
       | _ => []) ∧
    (fetchEntries uname (.resolved status d) s).1.message =
      (match d with
       | .str m => .str m
       | _ => s.message) := by
  cases d <;> exact ⟨rfl, rfl⟩

/-- C10: when the stats request is rejected, `fetchStats` returns (no exception) a state
with the same `stats` as before and the message `"Failed to fetch stats"`; when it
resolves, `stats` is the response body, whatever was held before. -/
theorem fetchStats_outcomes (uname : String) (month year : Double) (s : AppState) :
    (∀ e : Option Data,
      (fetchStats uname month year (.rejected e) s).1.stats = s.stats ∧
      (fetchStats uname month year (.rejected e) s).1.message =
        Data.str "Failed to fetch stats") ∧
    (∀ (status : Nat) (d : Data),
      (fetchStats uname month year (.resolved status d) s).1.stats = d) :=
  ⟨fun _ => ⟨rfl, rfl⟩, fun _ _ => rfl⟩

/-! ## Interleaved completions, reachable states and failure outcomes -/

/-- C11 as stated fails: the first load (issued before the create, answered `[]`) is
applied after the second one (answered with the Coffee entry), and the cache ends as the
stale `[]`, not as the newer response. -/
theorem stale_load_overwrites :
    (fetchEntries "alice" (.resolved 200 (.arr []))
      (fetchEntries "alice" (.resolved 200 (.arr [coffee])) aliceLoaded).1).1.entries
      ≠ [coffee] := by
  decide

/-- C11 amended: of two loads of the same user answered with arrays `L1` (first issued)
and `L2` (second issued), the one whose completion is applied last settles the cache:
`L1` when the second completes before the first, `L2` when they complete in order. -/
theorem fetchEntries_last_completion_wins (s : AppState) (uname : String)
    (status1 status2 : Nat) (L1 L2 : List Entry) :
    (fetchEntries uname (.resolved status1 (.arr L1))
      (fetchEntries uname (.resolved status2 (.arr L2)) s).1).1.entries = L1 ∧
    (fetchEntries uname (.resolved status2 (.arr L2))
      (fetchEntries uname (.resolved status1 (.arr L1)) s).1).1.entries = L2 :=
  ⟨rfl, rfl⟩

/-- C12 as stated fails: after typing `alice` into the username field of the login
screen the session is still unauthenticated and the username is not empty. -/
theorem typed_username_while_unauthenticated :
    (run [.typeUsername "alice"]
      (initialState (Double.ofNat 3) (Double.ofNat 2024))).isLoggedIn = false ∧
    (run [.typeUsername "alice"]
      (initialState (Double.ofNat 3) (Double.ofNat 2024))).username ≠ "" := by
  decide

/-- C12 amended: in every state reached from the initial state by a sequence of these
events, the username is the text typed last into the username field since the start or
the last logout, and empty when nothing was typed since; no login, register, load,
create, delete or stats refresh outcome changes it. -/
theorem username_eq_typedUsername (events : List Event) (month year : Double) :
    (run events (initialState month year)).username = typedUsername events :=
  run_username events (initialState month year) "" rfl

/-- C13 as stated fails: a load that resolves with a string body is not a success
outcome, yet it replaces the one-entry cache by the empty list. -/
theorem load_non_array_empties_cache :
    Operation.succeeds (.load "alice") (.resolved 200 (.str "User not found")) = false ∧
    (Operation.perform (.load "alice") (.resolved 200 (.str "User not found"))
      aliceLoaded).1.entries ≠ aliceLoaded.entries := by
  decide

/-- C13 amended: when the outcome of an operation is not its success outcome, the
handler returns a state with the same `isLoggedIn`, the same stats snapshot and the same
draft as before, and with the same entry cache, except that a load which resolves with
a body that is not an array leaves the cache empty. This holds of the operation carried
out from `s` with nothing else happening in between, and of the part of the handler
after its `await` run as the closure of any render `c` in any state `s2`. -/
theorem failure_keeps_state (op : Operation) (r : Response) (s : AppState)
    (h : op.succeeds r = false) :
    ((op.perform r s).1.isLoggedIn = s.isLoggedIn ∧
     (op.perform r s).1.stats = s.stats ∧
     (op.perform r s).1.entryForm = s.entryForm ∧
     (op.perform r s).1.entries =
       (match op, r with
        | .load _, .resolved _ _ => []
        | _, _ => s.entries)) ∧
    ∀ c s2 : AppState,
      (op.settle c r s2).1.isLoggedIn = s2.isLoggedIn ∧
      (op.settle c r s2).1.stats = s2.stats ∧
      (op.settle c r s2).1.entryForm = s2.entryForm ∧
      (op.settle c r s2).1.entries =
        (match op, r with
         | .load _, .resolved _ _ => []
         | _, _ => s2.entries) := by
  refine ⟨?_, fun c s2 => settle_failure op c r s2 h⟩
  obtain ⟨h1, h2, h3, h4⟩ := settle_failure op s r (op.submit s) h
  obtain ⟨k1, k2, k3, k4⟩ := submit_keeps op s
  unfold Operation.perform
  rw [h1, h2, h3, h4, k1, k2, k3, k4]
  exact ⟨rfl, rfl, rfl, rfl⟩

theorem failure_keeps_state_witness :
    Operation.succeeds .create (.rejected (some (.str "Quantity must be positive"))) = false ∧
    ((Operation.perform .create (.rejected (some (.str "Quantity must be positive")))
       aliceLoaded).1.isLoggedIn = true ∧
     (Operation.perform .create (.rejected (some (.str "Quantity must be positive")))
       aliceLoaded).1.stats = Data.null ∧
     (Operation.perform .create (.rejected (some (.str "Quantity must be positive")))
       aliceLoaded).1.entryForm = defaultEntryForm ∧
     (Operation.perform .create (.rejected (some (.str "Quantity must be positive")))
       aliceLoaded).1.entries = [coffee]) ∧
    ∀ c s2 : AppState,
      (Operation.settle .create c (.rejected (some (.str "Quantity must be positive")))
        s2).1.isLoggedIn = s2.isLoggedIn ∧
      (Operation.settle .create c (.rejected (some (.str "Quantity must be positive")))
        s2).1.stats = s2.stats ∧
      (Operation.settle .create c (.rejected (some (.str "Quantity must be positive")))
        s2).1.entryForm = s2.entryForm ∧
      (Operation.settle .create c (.rejected (some (.str "Quantity must be positive")))
        s2).1.entries = s2.entries :=
  ⟨rfl, failure_keeps_state .create (.rejected (some (.str "Quantity must be positive")))
    aliceLoaded rfl⟩

/-- C14 at the failing input: the login request resolves with status 204. `handleLogin`
has no branch for it: the session stays unauthenticated, only the login POST was sent,
and the message is the empty string set before the request, not a failure message;
`handleRegister` on the same outcome reports `"Registration failed"`. In whatever state
the request settles, the part of `handleLogin` after its `await` changes nothing. -/
theorem handleLogin_silent_on_other_status :
    (Operation.perform .login (.resolved 204 .null) aliceTyped).1.isLoggedIn = false ∧
    (Operation.perform .login (.resolved 204 .null) aliceTyped).1.message = Data.str "" ∧
    (Operation.perform .login (.resolved 204 .null) aliceTyped).2 =
      [.postLogin "alice" "pw1"] ∧
    (Operation.perform .register (.resolved 204 .null) aliceTyped).1.message =
      Data.str "Registration failed" ∧
    (∀ s : AppState, (handleLogin aliceTyped (.resolved 204 .null) s).1 = s) := by
  refine ⟨by decide, by decide, by decide, by decide, fun s => rfl⟩

/-- C15 as stated fails: the quantity of the one entry is `Infinity` (the JSON literal
`1e999`) and its price is `0`, both non-negative; the line total `Infinity * 0` is NaN,
so is the total, and `0 <= NaN` is false. -/
theorem infinite_quantity_breaks_bound :
    (∀ e ∈ [bulk],
      (∀ q, e.quantity = some q → Double.le Double.zero (.num q) = true) ∧
      (∀ p, e.price = some p → Double.le Double.zero (.num p) = true)) ∧
    totalSpentFiltered (filteredEntries asciiLowerCase [bulk] "" "all") = Double.nan ∧
    Double.le Double.zero
      (totalSpentFiltered (filteredEntries asciiLowerCase [bulk] "" "all")) = false := by
  refine ⟨?_, ?_, ?_⟩
  · intro e he
    have hb : e = bulk := by simpa using he
    subst hb
    constructor
    · intro q hq
      have : q = .inf false := by
        simp only [bulk, Option.some.injEq] at hq
        exact hq.symm
      subst this
      rfl
    · intro p hp
      have : p = .fin false 0 := by
        simp only [bulk, Option.some.injEq] at hp
        exact hp.symm
      subst this
      rfl
  · rw [filteredEntries_all_eq_self]
    rfl
  · rw [filteredEntries_all_eq_self]
    rfl

/-- C15 amended: on a cache whose present quantities and prices are all finite and
non-negative, the filtered total is at least `0` and at most the total under the
identity criteria (empty search term, mode filter `"all"`), for every search term and
mode filter; the comparisons are JavaScript's `<=` on the binary64 totals. -/
theorem totalSpentFiltered_bounded (L : LowerCase) (E : List Entry) (s m : String)
    (h : ∀ e ∈ E,
      (∀ q, e.quantity = some q →
        q.isFinite = true ∧ Double.le Double.zero (.num q) = true) ∧
      (∀ p, e.price = some p →
        p.isFinite = true ∧ Double.le Double.zero (.num p) = true)) :
    Double.le Double.zero (totalSpentFiltered (filteredEntries L E s m)) = true ∧
    Double.le (totalSpentFiltered (filteredEntries L E s m))
      (totalSpentFiltered (filteredEntries L E "" "all")) = true := by
  have hsub : (filteredEntries L E s m).Sublist E := List.filter_sublist E
  have hnn : ∀ x ∈ E.map
      (fun e => Double.mul (.num (orZero e.quantity)) (.num (orZero e.price))),
      NonNeg x := by
    intro x hx
    obtain ⟨e, he, rfl⟩ := List.mem_map.1 hx
    exact codeLine_nonNeg e (h e he)
  rw [filteredEntries_all_eq_self, totalSpentFiltered_eq_foldl_map,
    totalSpentFiltered_eq_foldl_map]
  constructor
  · apply zero_le_of_nonNeg
    apply Settled.nonNeg
    apply foldl_add_settled _ _ settled_zero
    intro x hx
    exact hnn x ((hsub.map _).subset hx)
  · exact foldl_add_le_of_sublist (hsub.map _) _ _ settled_zero settled_zero
      (zero_le_of_nonNeg settled_zero.nonNeg) hnn

theorem totalSpentFiltered_bounded_witness :
    (∀ e ∈ [coffee, tea],
      (∀ q, e.quantity = some q →
        q.isFinite = true ∧ Double.le Double.zero (.num q) = true) ∧
      (∀ p, e.price = some p →
        p.isFinite = true ∧ Double.le Double.zero (.num p) = true)) ∧
    Double.le Double.zero
      (totalSpentFiltered (filteredEntries asciiLowerCase [coffee, tea] "" "cash")) = true ∧
    Double.le (totalSpentFiltered (filteredEntries asciiLowerCase [coffee, tea] "" "cash"))
      (totalSpentFiltered (filteredEntries asciiLowerCase [coffee, tea] "" "all")) = true :=
  ⟨nonNeg_coffee_tea,
   totalSpentFiltered_bounded asciiLowerCase [coffee, tea] "" "cash" nonNeg_coffee_tea⟩

end ExpenseTracker
